import Mathlib

/-!
Verification of the VoiceInjector push-to-talk pipeline.

This file gives a shallow embedding of the core components of the
repository and proves the testable properties stated in its design
specification against that embedding:

- AudioCapture (src/src/audio/capture.py): buffering of PCM chunks and
  the adaptive-peak loudness normalization of the audio callback.
- VoiceActivityDetector (src/src/audio/vad.py): the Quiet/Speaking
  state machine that accumulates and emits speech segments.
- MuteControl (src/src/audio/mute_control.py): remembered-mute-state
  speaker muting.
- VoiceInjectorApp (src/src/app.py): the push-to-talk press/release
  transitions and the background processing task.
- TextInjector (src/src/injector/text_injector.py): construction of
  the synthetic keystroke event list.
- STTEngine (src/src/stt/engine.py): transcribe/translate task
  dispatch.

Bytes are modelled as lists of naturals, an audio chunk as the list of
its bytes.  Floating-point quantities of the source (the per-chunk RMS
value, the adaptive peak) are modelled over the ordered fields Rat and
Real; where a chunk's RMS feeds a state update it is supplied as the
rational companion of the chunk.
-/

namespace VoiceInjector

/-- An audio chunk: the raw bytes of one fixed-duration PCM block. -/
abbrev Chunk := List Nat

/-! ## AudioCapture (src/src/audio/capture.py)

State relevant to buffering: the `_is_buffering` flag, the
`_audio_buffer` list of chunks, and the adaptive `_rms_peak`. -/

structure CaptureState where
  isBuffering : Bool
  audioBuffer : List Chunk
  rmsPeak : ℚ
deriving Repr, DecidableEq

/-- Fresh state of AudioCapture.__init__: not buffering, empty buffer,
peak at the conservative default 50. -/
def CaptureState.init : CaptureState := ⟨false, [], 50⟩

/-- The adaptive peak update of _audio_callback: ramp up immediately to a
louder RMS, otherwise decay by the factor 0.998. -/
def updatePeak {α : Type} [LinearOrderedField α] (peak rms : α) : α :=
  if peak < rms then rms else peak * (998 / 1000)

/-- The buffering effect of AudioCapture._audio_callback: while
`_is_buffering`, append the chunk to the buffer and update the adaptive
peak with the chunk's RMS (`rms`, a float in the source, supplied here as
a rational). Outside buffering the callback leaves this state alone. -/
def audioCallback (s : CaptureState) (chunk : Chunk) (rms : ℚ) : CaptureState :=
  if s.isBuffering then
    { s with audioBuffer := s.audioBuffer ++ [chunk], rmsPeak := updatePeak s.rmsPeak rms }
  else s

/-- Deliver a sequence of chunks (each with its RMS) to the callback. -/
def feedChunks (s : CaptureState) (cs : List (Chunk × ℚ)) : CaptureState :=
  cs.foldl (fun st p => audioCallback st p.1 p.2) s

/-- AudioCapture.start_buffering: clear the buffer, reset the peak to the
conservative default, switch buffering on. -/
def startBuffering (s : CaptureState) : CaptureState :=
  { s with audioBuffer := [], rmsPeak := 50, isBuffering := true }

/-- AudioCapture.stop_buffering: switch buffering off, return the byte
concatenation of the buffered chunks, clear the buffer. -/
def stopBuffering (s : CaptureState) : List Nat × CaptureState :=
  ((s.audioBuffer).flatten, { s with isBuffering := false, audioBuffer := [] })

lemma feedChunks_buffering (cs : List (Chunk × ℚ)) :
    ∀ (buf : List Chunk) (pk : ℚ),
      (feedChunks ⟨true, buf, pk⟩ cs).isBuffering = true ∧
        (feedChunks ⟨true, buf, pk⟩ cs).audioBuffer = buf ++ cs.map Prod.fst := by
  induction cs with
  | nil => intro buf pk; simp [feedChunks]
  | cons p rest ih =>
      intro buf pk
      have hstep : feedChunks (⟨true, buf, pk⟩ : CaptureState) (p :: rest)
          = feedChunks ⟨true, buf ++ [p.1], updatePeak pk p.2⟩ rest := by
        simp [feedChunks, audioCallback]
      rw [hstep]
      have h2 := ih (buf ++ [p.1]) (updatePeak pk p.2)
      simp [h2.1, h2.2]

/-- C1: for every chunk sequence delivered to the capture callback between
a startBuffering call and the matching stopBuffering call, stopBuffering
returns exactly the byte concatenation of those chunks in arrival order,
and immediately afterwards the internal audio buffer is empty. -/
theorem stopBuffering_concat_and_clears (s : CaptureState) (cs : List (Chunk × ℚ)) :
    (stopBuffering (feedChunks (startBuffering s) cs)).1
        = (cs.map Prod.fst).flatten ∧
      (stopBuffering (feedChunks (startBuffering s) cs)).2.audioBuffer = [] := by
  have hs : startBuffering s = ⟨true, [], 50⟩ := by simp [startBuffering]
  have h := feedChunks_buffering cs [] 50
  rw [hs]
  constructor
  · simp [stopBuffering, h.2]
  · simp [stopBuffering]

/-! ## VoiceActivityDetector (src/src/audio/vad.py)

The Quiet/Speaking state machine of process_chunk.  The per-chunk
speech/non-speech classification is delegated to the external webrtcvad
library in the source; here each incoming chunk is paired with its
classification flag.  Sizes are in chunks: the derived quantities
_chunk_bytes, _min_speech_chunks, _silence_chunks and _pre_pad_chunks of
VoiceActivityDetector.__init__ are the fields of VADConfig. -/

structure VADConfig where
  chunkBytes : Nat
  minSpeechChunks : Nat
  silenceChunks : Nat
  prePadChunks : Nat
deriving Repr, DecidableEq

structure VADState where
  isSpeech : Bool
  speechCount : Nat
  silenceCount : Nat
  speechBuffer : List Chunk
  ringBuffer : List Chunk
deriving Repr, DecidableEq

/-- State after VoiceActivityDetector.__init__ (identical to the state
after reset()). -/
def VADState.init : VADState := ⟨false, 0, 0, [], []⟩

/-- Appending to collections.deque(maxlen=m): the new element goes on the
right and the oldest elements fall off the left so that at most m remain. -/
def ringAppend (maxlen : Nat) (buf : List Chunk) (c : Chunk) : List Chunk :=
  let b := buf ++ [c]
  b.drop (b.length - maxlen)

/-- VoiceActivityDetector.process_chunk.  The chunk comes with its
classification flag (the result of the is_speech call in the source; note
the source classifies a padded/trimmed copy but buffers the original
chunk).  Returns the successor state and the emitted segment, if any. -/
def processChunk (cfg : VADConfig) (s : VADState) (speechDetected : Bool) (chunk : Chunk) :
    VADState × Option (List Nat) :=
  if s.isSpeech = false then
    let ring := ringAppend cfg.prePadChunks s.ringBuffer chunk
    if speechDetected then
      let cnt := s.speechCount + 1
      if 3 ≤ cnt then
        (⟨true, cnt, 0, ring, []⟩, none)
      else
        (⟨false, cnt, s.silenceCount, s.speechBuffer, ring⟩, none)
    else
      (⟨false, 0, s.silenceCount, s.speechBuffer, ring⟩, none)
  else
    let buf := s.speechBuffer ++ [chunk]
    if speechDetected then
      (⟨true, s.speechCount, 0, buf, s.ringBuffer⟩, none)
    else
      let sil := s.silenceCount + 1
      if cfg.silenceChunks ≤ sil then
        if cfg.minSpeechChunks ≤ buf.length then
          (⟨false, 0, 0, [], s.ringBuffer⟩, some buf.flatten)
        else
          (⟨false, 0, 0, [], s.ringBuffer⟩, none)
      else
        (⟨true, s.speechCount, sil, buf, s.ringBuffer⟩, none)

/-- Run process_chunk over a stream of classified chunks, collecting the
emitted segments in order. -/
def processChunks (cfg : VADConfig) (s : VADState) : List (Bool × Chunk) → VADState × List (List Nat)
  | [] => (s, [])
  | (b, c) :: rest =>
      let step := processChunk cfg s b c
      let restRun := processChunks cfg step.1 rest
      (restRun.1, step.2.toList ++ restRun.2)

/-- Tag every chunk of a list with one classification flag. -/
def flagged (b : Bool) (l : List Chunk) : List (Bool × Chunk) := l.map (fun c => (b, c))

/-- The last m elements of a list. -/
def lastN (m : Nat) (l : List Chunk) : List Chunk := l.drop (l.length - m)

/-- Fold ringAppend over a list of chunks. -/
def ringExtend (maxlen : Nat) (buf : List Chunk) (l : List Chunk) : List Chunk :=
  l.foldl (ringAppend maxlen) buf

lemma processChunks_append (cfg : VADConfig) (l1 l2 : List (Bool × Chunk)) :
    ∀ s : VADState, processChunks cfg s (l1 ++ l2) =
      ((processChunks cfg (processChunks cfg s l1).1 l2).1,
        (processChunks cfg s l1).2 ++ (processChunks cfg (processChunks cfg s l1).1 l2).2) := by
  induction l1 with
  | nil => intro s; simp [processChunks]
  | cons p rest ih =>
      intro s
      obtain ⟨b, c⟩ := p
      simp only [List.cons_append, processChunks]
      simp only [List.append_eq]
      rw [ih]
      simp [List.append_assoc]

lemma ringExtend_cons (m : Nat) (c : Chunk) (ring : List Chunk) (l : List Chunk) :
    ringExtend m ring (c :: l) = ringExtend m (ringAppend m ring c) l := by
  simp [ringExtend]

lemma ringExtend_length (m : Nat) (l : List Chunk) :
    ∀ buf : List Chunk, buf.length ≤ m →
      (ringExtend m buf l).length = min (buf.length + l.length) m := by
  induction l with
  | nil =>
      intro buf hb
      simp [ringExtend]
      omega
  | cons c rest ih =>
      intro buf hb
      have hlen : (ringAppend m buf c).length = min (buf.length + 1) m := by
        simp [ringAppend]
        omega
      rw [ringExtend_cons, ih _ (by omega)]
      rw [hlen]
      simp only [List.length_cons]
      omega

lemma ringExtend_subset (m : Nat) (l : List Chunk) :
    ∀ buf : List Chunk, ringExtend m buf l ⊆ buf ++ l := by
  induction l with
  | nil => intro buf; simp [ringExtend]
  | cons c rest ih =>
      intro buf
      intro x hx
      have h1 : x ∈ ringAppend m buf c ++ rest := ih (ringAppend m buf c) hx
      have h2 : ringAppend m buf c ⊆ buf ++ [c] := List.drop_subset _ _
      rcases List.mem_append.1 h1 with h | h
      · have := h2 h
        rcases List.mem_append.1 this with h3 | h3
        · exact List.mem_append.2 (Or.inl h3)
        · simp at h3
          simp [h3]
      · simp [h]

lemma flatten_length_const (k : Nat) (l : List Chunk) (h : ∀ c ∈ l, c.length = k) :
    l.flatten.length = l.length * k := by
  induction l with
  | nil => simp
  | cons c rest ih =>
      have hc := h c (by simp)
      have hr := ih (fun x hx => h x (by simp [hx]))
      simp [List.flatten_cons, hc, hr]
      ring

lemma quiet_silence_run (cfg : VADConfig) (l : List Chunk) :
    ∀ (sc : Nat) (sb ring : List Chunk),
      processChunks cfg ⟨false, 0, sc, sb, ring⟩ (flagged false l) =
        (⟨false, 0, sc, sb, ringExtend cfg.prePadChunks ring l⟩, []) := by
  induction l with
  | nil => intro sc sb ring; simp [processChunks, flagged, ringExtend]
  | cons c rest ih =>
      intro sc sb ring
      have hstep : processChunk cfg ⟨false, 0, sc, sb, ring⟩ false c =
          (⟨false, 0, sc, sb, ringAppend cfg.prePadChunks ring c⟩, none) := by
        simp [processChunk]
      simp only [flagged, List.map_cons, processChunks, hstep]
      rw [show (List.map (fun c => (false, c)) rest) = flagged false rest from rfl]
      rw [ih sc sb (ringAppend cfg.prePadChunks ring c), ringExtend_cons]
      simp

lemma speaking_speech_run (cfg : VADConfig) (l : List Chunk) :
    ∀ (n : Nat) (sb ring : List Chunk),
      processChunks cfg ⟨true, n, 0, sb, ring⟩ (flagged true l) =
        (⟨true, n, 0, sb ++ l, ring⟩, []) := by
  induction l with
  | nil => intro n sb ring; simp [processChunks, flagged]
  | cons c rest ih =>
      intro n sb ring
      have hstep : processChunk cfg ⟨true, n, 0, sb, ring⟩ true c =
          (⟨true, n, 0, sb ++ [c], ring⟩, none) := by
        simp [processChunk]
      simp only [flagged, List.map_cons, processChunks, hstep]
      rw [show (List.map (fun c => (true, c)) rest) = flagged true rest from rfl]
      rw [ih n (sb ++ [c]) ring]
      simp

lemma speaking_silence_below (cfg : VADConfig) (l : List Chunk) :
    ∀ (n silc : Nat) (sb ring : List Chunk), silc + l.length < cfg.silenceChunks →
      processChunks cfg ⟨true, n, silc, sb, ring⟩ (flagged false l) =
        (⟨true, n, silc + l.length, sb ++ l, ring⟩, []) := by
  induction l with
  | nil => intro n silc sb ring _; simp [processChunks, flagged]
  | cons c rest ih =>
      intro n silc sb ring hlt
      have hstep : processChunk cfg ⟨true, n, silc, sb, ring⟩ false c =
          (⟨true, n, silc + 1, sb ++ [c], ring⟩, none) := by
        have : ¬ cfg.silenceChunks ≤ silc + 1 := by
          simp only [List.length_cons] at hlt
          omega
        simp [processChunk, this]
      simp only [flagged, List.map_cons, processChunks, hstep]
      rw [show (List.map (fun c => (false, c)) rest) = flagged false rest from rfl]
      rw [ih n (silc + 1) (sb ++ [c]) ring (by simp only [List.length_cons] at hlt; omega)]
      have harith : silc + 1 + rest.length = silc + (rest.length + 1) := by omega
      simp [harith]

lemma activation_run (cfg : VADConfig) (a b c : Chunk) (rest : List Chunk) (ring : List Chunk) :
    processChunks cfg ⟨false, 0, 0, [], ring⟩ (flagged true (a :: b :: c :: rest)) =
      (⟨true, 3, 0, ringExtend cfg.prePadChunks ring [a, b, c] ++ rest, []⟩, []) := by
  have h1 : processChunk cfg ⟨false, 0, 0, [], ring⟩ true a =
      (⟨false, 1, 0, [], ringAppend cfg.prePadChunks ring a⟩, none) := by
    simp [processChunk]
  have h2 : processChunk cfg ⟨false, 1, 0, [], ringAppend cfg.prePadChunks ring a⟩ true b =
      (⟨false, 2, 0, [], ringAppend cfg.prePadChunks (ringAppend cfg.prePadChunks ring a) b⟩,
        none) := by
    simp [processChunk]
  have h3 : processChunk cfg
      ⟨false, 2, 0, [],
        ringAppend cfg.prePadChunks (ringAppend cfg.prePadChunks ring a) b⟩ true c =
      (⟨true, 3, 0,
        ringAppend cfg.prePadChunks
          (ringAppend cfg.prePadChunks (ringAppend cfg.prePadChunks ring a) b) c, []⟩,
        none) := by
    simp [processChunk]
  simp only [flagged, List.map_cons, processChunks, h1, h2, h3]
  rw [show (List.map (fun x => (true, x)) rest) = flagged true rest from rfl]
  rw [speaking_speech_run]
  simp [ringExtend]

lemma run_append (cfg : VADConfig) {s s1 : VADState} {o1 : List (List Nat)}
    (l1 l2 : List (Bool × Chunk)) (h1 : processChunks cfg s l1 = (s1, o1)) :
    processChunks cfg s (l1 ++ l2) =
      ((processChunks cfg s1 l2).1, o1 ++ (processChunks cfg s1 l2).2) := by
  rw [processChunks_append cfg l1 l2 s, h1]

lemma silence_trigger_emit (cfg : VADConfig) (n : Nat) (sb ring : List Chunk) (t : Chunk)
    (hsil : 1 ≤ cfg.silenceChunks)
    (hmin : cfg.minSpeechChunks ≤ (sb ++ [t]).length) :
    processChunk cfg ⟨true, n, cfg.silenceChunks - 1, sb, ring⟩ false t =
      (⟨false, 0, 0, [], ring⟩, some (sb ++ [t]).flatten) := by
  have h1 : cfg.silenceChunks - 1 + 1 = cfg.silenceChunks := by omega
  have hmin2 : cfg.minSpeechChunks ≤ sb.length + 1 := by simpa using hmin
  simp [processChunk, h1, hmin2]

lemma silence_trigger_drop (cfg : VADConfig) (n : Nat) (sb ring : List Chunk) (t : Chunk)
    (hsil : 1 ≤ cfg.silenceChunks)
    (hmin : ¬ cfg.minSpeechChunks ≤ (sb ++ [t]).length) :
    processChunk cfg ⟨true, n, cfg.silenceChunks - 1, sb, ring⟩ false t =
      (⟨false, 0, 0, [], ring⟩, none) := by
  have h1 : cfg.silenceChunks - 1 + 1 = cfg.silenceChunks := by omega
  have hmin2 : ¬ cfg.minSpeechChunks ≤ sb.length + 1 := by simpa using hmin
  simp [processChunk, h1, hmin2]

/-- C2: for a chunk stream of N consecutive speech-classified chunks
(N at least the activation threshold 3) after some non-speech pre-roll,
followed by M non-speech chunks, the detector emits exactly one segment
precisely when the accumulated chunk count reaches the minimum-speech
threshold and M reaches the silence threshold; the segment's byte length
is pre-roll bytes plus N chunks plus silence chunks (the latter counted
only up to the silence threshold), all of size chunkBytes; otherwise no
segment is emitted. -/
theorem vad_segment_emission (cfg : VADConfig) (pres spks sils : List Chunk)
    (hpre : 3 ≤ cfg.prePadChunks) (hsil : 1 ≤ cfg.silenceChunks) (hN : 3 ≤ spks.length)
    (hc1 : ∀ c ∈ pres, c.length = cfg.chunkBytes)
    (hc2 : ∀ c ∈ spks, c.length = cfg.chunkBytes)
    (hc3 : ∀ c ∈ sils, c.length = cfg.chunkBytes) :
    (cfg.silenceChunks ≤ sils.length ∧
        cfg.minSpeechChunks ≤
          min pres.length (cfg.prePadChunks - 3) + spks.length + cfg.silenceChunks →
      ∃ seg,
        (processChunks cfg VADState.init
            (flagged false pres ++ (flagged true spks ++ flagged false sils))).2 = [seg] ∧
          seg.length =
            (min pres.length (cfg.prePadChunks - 3) + spks.length + cfg.silenceChunks) *
              cfg.chunkBytes) ∧
    (¬ (cfg.silenceChunks ≤ sils.length ∧
          cfg.minSpeechChunks ≤
            min pres.length (cfg.prePadChunks - 3) + spks.length + cfg.silenceChunks) →
      (processChunks cfg VADState.init
          (flagged false pres ++ (flagged true spks ++ flagged false sils))).2 = []) := by
  rcases spks with _ | ⟨x, spks⟩
  · simp at hN
  rcases spks with _ | ⟨y, spks⟩
  · simp at hN
  rcases spks with _ | ⟨z, rest⟩
  · simp at hN
  have hRsub : ringExtend cfg.prePadChunks [] pres ⊆ pres := by
    have h := ringExtend_subset cfg.prePadChunks pres []
    simpa using h
  have hRlen : (ringExtend cfg.prePadChunks [] pres).length = min pres.length cfg.prePadChunks := by
    have h := ringExtend_length cfg.prePadChunks pres [] (by simp)
    simpa using h
  have h1 : processChunks cfg VADState.init (flagged false pres) =
      (⟨false, 0, 0, [], ringExtend cfg.prePadChunks [] pres⟩, []) := by
    have h := quiet_silence_run cfg pres 0 [] []
    simpa [VADState.init] using h
  have h2 : processChunks cfg ⟨false, 0, 0, [], ringExtend cfg.prePadChunks [] pres⟩
      (flagged true (x :: y :: z :: rest)) =
      (⟨true, 3, 0,
        ringExtend cfg.prePadChunks (ringExtend cfg.prePadChunks [] pres) [x, y, z] ++ rest,
        []⟩, []) :=
    activation_run cfg x y z rest _
  set B := ringExtend cfg.prePadChunks (ringExtend cfg.prePadChunks [] pres) [x, y, z] ++ rest
    with hBdef
  have hBlen : B.length = min (pres.length + 3) cfg.prePadChunks + rest.length := by
    rw [hBdef, List.length_append,
      ringExtend_length cfg.prePadChunks [x, y, z] _ (by rw [hRlen]; omega), hRlen]
    simp
    omega
  have hBmem : ∀ w ∈ B, w.length = cfg.chunkBytes := by
    intro w hw
    rw [hBdef] at hw
    rcases List.mem_append.1 hw with hw | hw
    · have hsub := ringExtend_subset cfg.prePadChunks [x, y, z] _ hw
      rcases List.mem_append.1 hsub with h | h
      · exact hc1 w (hRsub h)
      · simp only [List.mem_cons, List.not_mem_nil, or_false] at h
        rcases h with rfl | rfl | rfl
        · exact hc2 w (by simp)
        · exact hc2 w (by simp)
        · exact hc2 w (by simp)
    · exact hc2 w (by simp [hw])
  by_cases hM : cfg.silenceChunks ≤ sils.length
  · have hS1 : cfg.silenceChunks - 1 < sils.length := by omega
    obtain ⟨pre1, t, post, hsils, hlen1⟩ :
        ∃ pre1 t post, sils = pre1 ++ t :: post ∧ pre1.length = cfg.silenceChunks - 1 := by
      refine ⟨sils.take (cfg.silenceChunks - 1), sils[cfg.silenceChunks - 1],
        sils.drop cfg.silenceChunks, ?_, ?_⟩
      · conv_lhs => rw [← List.take_append_drop (cfg.silenceChunks - 1) sils]
        rw [List.drop_eq_getElem_cons hS1]
        have hidx : cfg.silenceChunks - 1 + 1 = cfg.silenceChunks := by omega
        rw [hidx]
      · rw [List.length_take]
        omega
    have hflag : flagged false sils = flagged false pre1 ++ ((false, t) :: flagged false post) := by
      rw [hsils]
      simp [flagged]
    have h3 : processChunks cfg ⟨true, 3, 0, B, []⟩ (flagged false pre1) =
        (⟨true, 3, cfg.silenceChunks - 1, B ++ pre1, []⟩, []) := by
      rw [speaking_silence_below cfg pre1 3 0 B [] (by omega)]
      simp [hlen1]
    have hkey : ((B ++ pre1) ++ [t]).length =
        min pres.length (cfg.prePadChunks - 3) + (x :: y :: z :: rest).length +
          cfg.silenceChunks := by
      simp only [List.length_append, List.length_cons, List.length_nil, hBlen, hlen1]
      omega
    have hbufmem : ∀ w ∈ (B ++ pre1) ++ [t], w.length = cfg.chunkBytes := by
      intro w hw
      rcases List.mem_append.1 hw with hw | hw
      · rcases List.mem_append.1 hw with hw | hw
        · exact hBmem w hw
        · exact hc3 w (by rw [hsils]; simp [hw])
      · simp only [List.mem_singleton] at hw
        subst hw
        exact hc3 w (by rw [hsils]; simp)
    by_cases hmin : cfg.minSpeechChunks ≤ ((B ++ pre1) ++ [t]).length
    · have htrig := silence_trigger_emit cfg 3 (B ++ pre1) [] t hsil hmin
      have h4 : processChunks cfg ⟨true, 3, cfg.silenceChunks - 1, B ++ pre1, []⟩
          ((false, t) :: flagged false post) =
          (⟨false, 0, 0, [], ringExtend cfg.prePadChunks [] post⟩,
            [((B ++ pre1) ++ [t]).flatten]) := by
        simp only [processChunks]
        rw [htrig, quiet_silence_run cfg post 0 [] []]
        simp
      have hall : (processChunks cfg VADState.init
          (flagged false pres ++ (flagged true (x :: y :: z :: rest) ++ flagged false sils))).2 =
          [((B ++ pre1) ++ [t]).flatten] := by
        rw [hflag, run_append cfg _ _ h1, run_append cfg _ _ h2, run_append cfg _ _ h3, h4]
        simp
      constructor
      · intro _
        refine ⟨((B ++ pre1) ++ [t]).flatten, hall, ?_⟩
        rw [flatten_length_const cfg.chunkBytes _ hbufmem, hkey]
      · intro hcond
        exact absurd ⟨hM, hkey ▸ hmin⟩ hcond
    · have htrig := silence_trigger_drop cfg 3 (B ++ pre1) [] t hsil hmin
      have h4 : processChunks cfg ⟨true, 3, cfg.silenceChunks - 1, B ++ pre1, []⟩
          ((false, t) :: flagged false post) =
          (⟨false, 0, 0, [], ringExtend cfg.prePadChunks [] post⟩, []) := by
        simp only [processChunks]
        rw [htrig, quiet_silence_run cfg post 0 [] []]
        simp
      have hall : (processChunks cfg VADState.init
          (flagged false pres ++ (flagged true (x :: y :: z :: rest) ++ flagged false sils))).2 =
          [] := by
        rw [hflag, run_append cfg _ _ h1, run_append cfg _ _ h2, run_append cfg _ _ h3, h4]
        simp
      constructor
      · intro hcond
        exact absurd (hkey ▸ hcond.2) hmin
      · intro _
        exact hall
  · have h3 : processChunks cfg ⟨true, 3, 0, B, []⟩ (flagged false sils) =
        (⟨true, 3, 0 + sils.length, B ++ sils, []⟩, []) :=
      speaking_silence_below cfg sils 3 0 B [] (by omega)
    constructor
    · intro hcond
      exact absurd hcond.1 hM
    · intro _
      rw [run_append cfg _ _ h1, run_append cfg _ _ h2, h3]
      simp

def vadCfgW : VADConfig := ⟨2, 1, 1, 3⟩

def spkW : Chunk := [0, 0]

/-- Witness for the C2 theorem: three speech chunks then one silence
chunk through a detector with silence threshold 1 and minimum duration 1
emit exactly one segment of (0 + 3 + 1) * 2 bytes. -/
theorem vad_segment_emission_witness :
    (3 : Nat) ≤ vadCfgW.prePadChunks ∧
      ∃ seg,
        (processChunks vadCfgW VADState.init
            (flagged false [] ++ (flagged true [spkW, spkW, spkW] ++ flagged false [spkW]))).2 =
          [seg] ∧
          seg.length =
            (min ([] : List Chunk).length (vadCfgW.prePadChunks - 3) +
                ([spkW, spkW, spkW] : List Chunk).length + vadCfgW.silenceChunks) *
              vadCfgW.chunkBytes := by
  refine ⟨by decide, ?_⟩
  exact (vad_segment_emission vadCfgW [] [spkW, spkW, spkW] [spkW] (by decide) (by decide)
    (by decide) (by decide) (by decide) (by decide)).1 (by decide)

/-! ## Adaptive level normalization (src/src/audio/capture.py lines 74-102)

The float arithmetic of the level computation is modelled over the real
numbers; a chunk's RMS (np.sqrt of the mean square of its samples in the
source) enters as a nonnegative real. -/

/-- The normalized loudness reported to the level callback, computed from
the tracked peak after its update: min(1, (rms/peak) ** 0.5) once the
peak exceeds the floor 0.1, else 0. -/
noncomputable def levelOf (peak rms : ℝ) : ℝ :=
  if (1 / 10 : ℝ) < peak then min 1 (Real.sqrt (rms / peak)) else 0

/-- C9: at every level-callback invocation the reported normalized level
lies in [0,1]; it equals min 1 (sqrt (rms/peak)) once the updated tracked
peak exceeds the floor and is 0 otherwise; and a chunk whose RMS exceeds
the current tracked peak raises the peak to at least that RMS within that
single update. -/
theorem level_in_unit_and_peak_ramps (peak rms : ℝ) (hrms : 0 ≤ rms) :
    (0 ≤ levelOf (updatePeak peak rms) rms ∧ levelOf (updatePeak peak rms) rms ≤ 1) ∧
      ((1 / 10 : ℝ) < updatePeak peak rms →
        levelOf (updatePeak peak rms) rms =
          min 1 (Real.sqrt (rms / updatePeak peak rms))) ∧
      (¬ (1 / 10 : ℝ) < updatePeak peak rms → levelOf (updatePeak peak rms) rms = 0) ∧
      (peak < rms → rms ≤ updatePeak peak rms) := by
  refine ⟨?_, ?_, ?_, ?_⟩
  · constructor
    · by_cases h : (1 / 10 : ℝ) < updatePeak peak rms
      · simp only [levelOf, if_pos h]
        exact le_min zero_le_one (Real.sqrt_nonneg _)
      · simp only [levelOf, if_neg h]
        exact le_refl 0
    · by_cases h : (1 / 10 : ℝ) < updatePeak peak rms
      · simp only [levelOf, if_pos h]
        exact min_le_left _ _
      · simp only [levelOf, if_neg h]
        exact zero_le_one
  · intro h
    simp only [levelOf, if_pos h]
  · intro h
    simp only [levelOf, if_neg h]
  · intro h
    simp only [updatePeak, if_pos h]
    exact le_refl rms

/-- Witness for the C9 theorem at peak 0 and RMS 1. -/
theorem level_in_unit_and_peak_ramps_witness :
    (0 : ℝ) ≤ 1 ∧
      ((0 ≤ levelOf (updatePeak (0 : ℝ) 1) 1 ∧ levelOf (updatePeak (0 : ℝ) 1) 1 ≤ 1) ∧
        ((1 / 10 : ℝ) < updatePeak (0 : ℝ) 1 →
          levelOf (updatePeak (0 : ℝ) 1) 1 =
            min 1 (Real.sqrt (1 / updatePeak (0 : ℝ) 1))) ∧
        (¬ (1 / 10 : ℝ) < updatePeak (0 : ℝ) 1 → levelOf (updatePeak (0 : ℝ) 1) 1 = 0) ∧
        ((0 : ℝ) < 1 → (1 : ℝ) ≤ updatePeak (0 : ℝ) 1)) :=
  ⟨zero_le_one, level_in_unit_and_peak_ramps 0 1 zero_le_one⟩

/-! ## MuteControl (src/src/audio/mute_control.py)

The Windows audio endpoint is modelled by the sysMuted flag; the
component's own fields (enabled, initialized, remembered prior state) are
carried alongside. -/

structure MuteState where
  enabled : Bool
  initialized : Bool
  wasMutedBefore : Bool
  sysMuted : Bool
deriving Repr, DecidableEq

/-- MuteControl.mute: remember whether the endpoint was already muted and
mute it only if it was not; a no-op when disabled or uninitialized. -/
def muteOp (m : MuteState) : MuteState :=
  if m.enabled && m.initialized then
    if m.sysMuted then { m with wasMutedBefore := true }
    else { m with wasMutedBefore := false, sysMuted := true }
  else m

/-- MuteControl.unmute: unmute only if the endpoint was not already muted
when mute was called; a no-op when disabled or uninitialized. -/
def unmuteOp (m : MuteState) : MuteState :=
  if m.enabled && m.initialized then
    if m.wasMutedBefore then m else { m with sysMuted := false }
  else m

/-- MuteControl.force_unmute: unconditional unmute (shutdown safety). -/
def forceUnmuteOp (m : MuteState) : MuteState :=
  if m.initialized then { m with sysMuted := false } else m

lemma unmuteOp_muteOp_sysMuted (m : MuteState) :
    (unmuteOp (muteOp m)).sysMuted = m.sysMuted := by
  by_cases he : m.enabled && m.initialized
  · by_cases hm : m.sysMuted
    · simp [muteOp, unmuteOp, he, hm]
    · simp [muteOp, unmuteOp, he, hm]
  · simp [muteOp, unmuteOp, he]

/-! ## VoiceInjectorApp press/release transitions (src/src/app.py) -/

inductive Status
  | idle
  | listening
  | processing
  | error
deriving Repr, DecidableEq

inductive OverlayView
  | idleView
  | recording
  | processing
  | result (text : String)
  | errorView (msg : String)
deriving Repr, DecidableEq

structure AppState where
  isRecording : Bool
  mute : MuteState
  vad : VADState
  capture : CaptureState
  tray : Status
  overlay : OverlayView
deriving Repr, DecidableEq

/-- VoiceInjectorApp._on_ptt_press: ignored while already recording;
otherwise mute the speakers, reset the segmenter, start buffering, and
show the recording UI. -/
def onPttPress (s : AppState) : AppState :=
  if s.isRecording then s
  else
    { s with
      isRecording := true
      mute := muteOp s.mute
      vad := VADState.init
      capture := startBuffering s.capture
      tray := Status.listening
      overlay := OverlayView.recording }

/-- VoiceInjectorApp._on_ptt_release: ignored while not recording;
otherwise restore the speakers, stop buffering, and either return to idle
(below the minimal byte threshold) or hand the audio to the background
task. -/
def onPttRelease (s : AppState) : AppState × Option (List Nat) :=
  if s.isRecording = false then (s, none)
  else
    let stopped := stopBuffering s.capture
    let s1 : AppState :=
      { s with isRecording := false, mute := unmuteOp s.mute, capture := stopped.2 }
    if stopped.1.length < 1000 then
      ({ s1 with tray := Status.idle, overlay := OverlayView.idleView }, none)
    else
      ({ s1 with tray := Status.processing, overlay := OverlayView.processing }, some stopped.1)

/-- C4: across a press-release cycle the system mute state is restored:
if the output was muted before the press it stays muted after the
release, and if it was unmuted it ends unmuted. -/
theorem mute_restored_after_cycle (s : AppState) (h : s.isRecording = false) :
    ((onPttRelease (onPttPress s)).1).mute.sysMuted = s.mute.sysMuted := by
  simp only [onPttPress, h, Bool.false_eq_true, if_false]
  simp only [onPttRelease]
  split
  · next hfalse => simp at hfalse
  · split <;> simp [unmuteOp_muteOp_sysMuted]

def sampleApp : AppState :=
  ⟨false, ⟨true, true, false, false⟩, VADState.init, CaptureState.init, Status.idle,
    OverlayView.idleView⟩

/-- Witness for the C4 theorem on a concrete idle application state. -/
theorem mute_restored_after_cycle_witness :
    sampleApp.isRecording = false ∧
      ((onPttRelease (onPttPress sampleApp)).1).mute.sysMuted = sampleApp.mute.sysMuted :=
  ⟨rfl, mute_restored_after_cycle sampleApp rfl⟩

/-- C5: the recording-activation transition is idempotent: pressing twice
without an intervening release has exactly the effect of pressing once
(no second mute, no segmenter reset, no audio-buffer reset on the second
call). -/
theorem ptt_press_idempotent (s : AppState) : onPttPress (onPttPress s) = onPttPress s := by
  by_cases h : s.isRecording
  · simp [onPttPress, h]
  · simp [onPttPress, h]

/-! ## Background processing mutual exclusion (src/src/app.py lines 156-185)

Two background processing tasks spawned by _on_ptt_release, each
executing "with self._processing_lock: <transcribe and inject>".  The
lock semantics of threading.Lock is modelled as a transition system:
a task enters its body only by acquiring the free lock and frees the
lock when its body completes; the scheduler may interleave the two
tasks arbitrarily. -/

inductive TaskPhase
  | waiting
  | inBody
  | finished
deriving Repr, DecidableEq

structure ProcSched where
  lockHeld : Bool
  task0 : TaskPhase
  task1 : TaskPhase
deriving Repr, DecidableEq

/-- One scheduler step: a waiting task acquires the free processing lock
and enters its transcribe-and-inject body, or a task in its body finishes
and releases the lock. -/
inductive ProcStep : ProcSched → ProcSched → Prop
  | acquire0 (s : ProcSched) : s.task0 = TaskPhase.waiting → s.lockHeld = false →
      ProcStep s ⟨true, TaskPhase.inBody, s.task1⟩
  | acquire1 (s : ProcSched) : s.task1 = TaskPhase.waiting → s.lockHeld = false →
      ProcStep s ⟨true, s.task0, TaskPhase.inBody⟩
  | release0 (s : ProcSched) : s.task0 = TaskPhase.inBody →
      ProcStep s ⟨false, TaskPhase.finished, s.task1⟩
  | release1 (s : ProcSched) : s.task1 = TaskPhase.inBody →
      ProcStep s ⟨false, s.task0, TaskPhase.finished⟩

/-- Both tasks dispatched, neither yet in its body, lock free. -/
def ProcSched.start : ProcSched := ⟨false, TaskPhase.waiting, TaskPhase.waiting⟩

def ProcReachable (s : ProcSched) : Prop :=
  Relation.ReflTransGen ProcStep ProcSched.start s

/-- A task is inside the transcribe-and-inject body only while it holds
the lock, and then the other task is not inside its body. -/
def LockInv (s : ProcSched) : Prop :=
  (s.task0 = TaskPhase.inBody → s.lockHeld = true ∧ s.task1 ≠ TaskPhase.inBody) ∧
    (s.task1 = TaskPhase.inBody → s.lockHeld = true ∧ s.task0 ≠ TaskPhase.inBody)

lemma lockInv_start : LockInv ProcSched.start := by
  constructor
  · intro h
    exact absurd h (by simp [ProcSched.start])
  · intro h
    exact absurd h (by simp [ProcSched.start])

lemma lockInv_step {s s' : ProcSched} (hs : LockInv s) (st : ProcStep s s') : LockInv s' := by
  cases st with
  | acquire0 h0 hl =>
      constructor
      · intro _
        refine ⟨rfl, ?_⟩
        intro h1
        have hcontra := (hs.2 h1).1
        rw [hl] at hcontra
        exact Bool.false_ne_true hcontra
      · intro h1
        exfalso
        have hcontra := (hs.2 h1).1
        rw [hl] at hcontra
        exact Bool.false_ne_true hcontra
  | acquire1 h1 hl =>
      constructor
      · intro h0
        exfalso
        have hcontra := (hs.1 h0).1
        rw [hl] at hcontra
        exact Bool.false_ne_true hcontra
      · intro _
        refine ⟨rfl, ?_⟩
        intro h0
        have hcontra := (hs.1 h0).1
        rw [hl] at hcontra
        exact Bool.false_ne_true hcontra
  | release0 h0 =>
      constructor
      · intro hfin
        exact absurd hfin (by simp)
      · intro h1
        exact absurd h1 (hs.1 h0).2
  | release1 h1 =>
      constructor
      · intro h0
        exact absurd h0 (hs.2 h1).2
      · intro hfin
        exact absurd hfin (by simp)

/-- C3: in every schedule of two concurrently dispatched background
processing tasks, at most one is inside its transcribe-and-inject body at
any time; the other cannot acquire the single processing lock until the
first releases it. -/
theorem processing_mutual_exclusion (s : ProcSched) (h : ProcReachable s) :
    ¬ (s.task0 = TaskPhase.inBody ∧ s.task1 = TaskPhase.inBody) := by
  have hinv : LockInv s := by
    induction h with
    | refl => exact lockInv_start
    | tail _ hstep ih => exact lockInv_step ih hstep
  rintro ⟨h0, h1⟩
  exact (hinv.1 h0).2 h1

/-- Witness for the C3 theorem at the initial schedule state. -/
theorem processing_mutual_exclusion_witness :
    ¬ (ProcSched.start.task0 = TaskPhase.inBody ∧
        ProcSched.start.task1 = TaskPhase.inBody) :=
  processing_mutual_exclusion ProcSched.start Relation.ReflTransGen.refl

/-! ## TextInjector (src/src/injector/text_injector.py)

A keyboard event carries the three discriminating KEYBDINPUT fields; the
time and extra-info fields are always zero in the source and are omitted.
Text is the list of Unicode code points of the Python string.  The wVk
and wScan struct fields are 16-bit WORDs: ctypes stores assigned values
modulo 2^16. -/

def KEYEVENTF_UNICODE : Nat := 4
def KEYEVENTF_KEYUP : Nat := 2
def VK_RETURN : Nat := 13

structure KeybdInput where
  wVk : Nat
  wScan : Nat
  dwFlags : Nat
deriving Repr, DecidableEq

/-- TextInjector._make_unicode_input: virtual-key 0, scan code the
character's code point truncated to a WORD, unicode flag plus optional
key-up flag. -/
def makeUnicodeInput (c : Nat) (keyUp : Bool) : KeybdInput :=
  ⟨0, c % 65536, KEYEVENTF_UNICODE ||| (if keyUp then KEYEVENTF_KEYUP else 0)⟩

/-- TextInjector._make_vk_input: the virtual-key code, scan code 0,
optional key-up flag. -/
def makeVkInput (vk : Nat) (keyUp : Bool) : KeybdInput :=
  ⟨vk % 65536, 0, if keyUp then KEYEVENTF_KEYUP else 0⟩

structure InjectorConfig where
  addTrailingSpace : Bool
  addTrailingNewline : Bool
deriving Repr, DecidableEq

/-- The trailing space/newline normalization shared by inject_text and
inject_text_fast (applied after the empty-text early return). -/
def normalizeText (cfg : InjectorConfig) (text : List Nat) : List Nat :=
  let t1 := if cfg.addTrailingSpace ∧ text.getLast? ≠ some 32 then text ++ [32] else text
  if cfg.addTrailingNewline ∧ t1.getLast? ≠ some 10 then t1 ++ [10] else t1

/-- The down/up event pair for one character: newline becomes the Enter
virtual key, everything else a raw-unicode event pair. -/
def charEvents (c : Nat) : List KeybdInput :=
  if c = 10 then [makeVkInput VK_RETURN false, makeVkInput VK_RETURN true]
  else [makeUnicodeInput c false, makeUnicodeInput c true]

/-- TextInjector.inject_text_fast: empty text is an early-returned no-op;
otherwise the normalized text's events are built in order and submitted
in one SendInput call. -/
def injectTextFastEvents (cfg : InjectorConfig) (text : List Nat) : List KeybdInput :=
  if text = [] then []
  else ((normalizeText cfg text).map charEvents).flatten

/-- TextInjector.inject_text: identical event sequence, sent one
character at a time. -/
def injectTextEvents (cfg : InjectorConfig) (text : List Nat) : List KeybdInput :=
  if text = [] then []
  else ((normalizeText cfg text).map charEvents).flatten

/-- The UTF-16 code units of a Unicode code point; the specification's
phrase "the scan code field carries the UTF-16 code unit value directly"
refers to these. -/
def utf16CodeUnits (c : Nat) : List Nat :=
  if c < 65536 then [c]
  else [55296 + (c - 65536) / 1024, 56320 + (c - 65536) % 1024]

/-- C6: evaluation at the failing input.  Injecting the single emoji
U+1F600 (code point 128512) builds one raw-unicode down/up pair whose
scan code is 128512 mod 2^16 = 62976 — not a UTF-16 code unit of the
character, whose code units are the surrogate pair 55357, 56832.  So the
scan code does not carry the character's UTF-16 code unit value for
non-BMP characters and such characters are not deliverable as claimed
(for BMP characters code point and code unit coincide and the claim's
description is accurate). -/
theorem unicode_injection_truncates_non_bmp :
    injectTextFastEvents ⟨false, false⟩ [128512] =
        [⟨0, 62976, 4⟩, ⟨0, 62976, 6⟩] ∧
      utf16CodeUnits 128512 = [55357, 56832] ∧
      62976 ∉ utf16CodeUnits 128512 := by
  refine ⟨?_, ?_, ?_⟩ <;> decide

/-- C10: injecting the empty string is a no-op for every configuration:
no events are built and no trailing space or newline is appended, even
when those options are enabled. -/
theorem inject_empty_noop (cfg : InjectorConfig) :
    injectTextFastEvents cfg [] = [] ∧ injectTextEvents cfg [] = [] := by
  constructor <;> simp [injectTextFastEvents, injectTextEvents]

/-! ## STTEngine (src/src/stt/engine.py)

The Whisper model is an external collaborator: it is abstracted as a
function from the (task, language) arguments of the model.transcribe call
to the joined segment text, and the calls made to it are recorded.  The
Google translator is abstracted likewise. -/

inductive STTTask
  | transcribe
  | translate
deriving Repr, DecidableEq

structure WhisperCall where
  task : STTTask
  language : Option String
deriving Repr, DecidableEq

/-- STTEngine._translate_text: return the original text when the
translator is unavailable, when the text is blank, or when translation
returns an empty result (the source also falls back to the original text
on a translation exception). -/
def translateText (translatorAvailable : Bool) (translator : String → String)
    (text : String) : String :=
  if translatorAvailable = false then text
  else if text.trim = "" then text
  else if translator text = "" then text
  else translator text

/-- STTEngine.transcribe: short audio returns "" without touching the
model; otherwise the model is invoked once with task="transcribe" and the
language forced to "ko" in translate mode (auto-detect otherwise), and in
translate mode the resulting text is then translated as a separate step.
Returns the produced text together with the list of model calls made. -/
def engineTranscribe (currentTask : STTTask) (language : Option String)
    (whisper : STTTask → Option String → String)
    (translatorAvailable : Bool) (translator : String → String)
    (audioLen sampleRate : Nat) : String × List WhisperCall :=
  if audioLen < 1000 then ("", [])
  else if audioLen / 2 < sampleRate / 2 then ("", [])
  else
    let whisperLang := if currentTask = STTTask.translate then some "ko" else language
    let text := whisper STTTask.transcribe whisperLang
    let calls := [⟨STTTask.transcribe, whisperLang⟩]
    if text = "" then ("", calls)
    else if currentTask = STTTask.translate then
      (translateText translatorAvailable translator text, calls)
    else (text, calls)

/-- C7: in translate mode every model invocation uses task="transcribe"
with the source language forced to "ko" — the model's built-in translate
mode is never used — and translation happens as a separate subsequent
step through the translation collaborator. -/
theorem translate_mode_never_uses_model_translate (language : Option String)
    (whisper : STTTask → Option String → String)
    (translatorAvailable : Bool) (translator : String → String)
    (audioLen sampleRate : Nat) :
    (∀ call ∈ (engineTranscribe STTTask.translate language whisper translatorAvailable
        translator audioLen sampleRate).2,
      call.task = STTTask.transcribe ∧ call.language = some "ko") ∧
      (¬ audioLen < 1000 → ¬ audioLen / 2 < sampleRate / 2 →
        whisper STTTask.transcribe (some "ko") ≠ "" →
        (engineTranscribe STTTask.translate language whisper translatorAvailable
            translator audioLen sampleRate).1 =
          translateText translatorAvailable translator
            (whisper STTTask.transcribe (some "ko"))) := by
  constructor
  · intro call hcall
    by_cases h1 : audioLen < 1000
    · simp [engineTranscribe, h1] at hcall
    · by_cases h2 : audioLen / 2 < sampleRate / 2
      · simp [engineTranscribe, h1, h2] at hcall
      · simp only [engineTranscribe, if_neg h1, if_neg h2] at hcall
        by_cases h3 : whisper STTTask.transcribe (some "ko") = ""
        · simp [h3] at hcall
          subst hcall
          exact ⟨rfl, rfl⟩
        · simp [h3] at hcall
          subst hcall
          exact ⟨rfl, rfl⟩
  · intro h1 h2 h3
    simp [engineTranscribe, h1, h2, h3]

/-- Witness for the C7 theorem on a concrete audio buffer and model. -/
theorem translate_mode_never_uses_model_translate_witness :
    (∀ call ∈ (engineTranscribe STTTask.translate none
        (fun _ _ => "안녕") true (fun _ => "hello") 32000 16000).2,
      call.task = STTTask.transcribe ∧ call.language = some "ko") ∧
      (¬ (32000 : Nat) < 1000 → ¬ (32000 : Nat) / 2 < (16000 : Nat) / 2 →
        ("안녕" : String) ≠ "" →
        (engineTranscribe STTTask.translate none
            (fun _ _ => "안녕") true (fun _ => "hello") 32000 16000).1 =
          translateText true (fun _ => "hello") "안녕") :=
  translate_mode_never_uses_model_translate none (fun _ _ => "안녕") true
    (fun _ => "hello") 32000 16000

/-! ## Background processing task (src/src/app.py _process_audio)

The body runs under the processing lock; transcription and injection are
fallible collaborators modelled in the exception monad.  The try/except
reports errors on the tray and overlay instead of propagating them, and
the finally-block restores the idle tray status while the app runs. -/

structure ProcUIState where
  tray : Status
  overlay : OverlayView
  injected : List String
deriving Repr, DecidableEq

/-- The try-block of _process_audio: transcribe, then on non-empty text
inject it and show the result, else show idle. -/
def processBody (transcribeRes : Except String String)
    (injectRes : String → Except String Unit) (u : ProcUIState) :
    Except String ProcUIState :=
  match transcribeRes with
  | Except.error e => Except.error e
  | Except.ok text =>
      if text = "" then Except.ok { u with overlay := OverlayView.idleView }
      else
        match injectRes text with
        | Except.error e => Except.error e
        | Except.ok _ =>
            Except.ok { u with
              injected := u.injected ++ [text]
              overlay := OverlayView.result text }

/-- VoiceInjectorApp._process_audio: any exception of the body is caught
and shown as an error status (never re-raised — the function is total),
and the finally-block sets the tray back to idle while the app runs. -/
def processAudio (running : Bool) (transcribeRes : Except String String)
    (injectRes : String → Except String Unit) (u : ProcUIState) : ProcUIState :=
  let afterTry :=
    match processBody transcribeRes injectRes u with
    | Except.ok u2 => u2
    | Except.error e => { u with
        tray := Status.error
        overlay := OverlayView.errorView e }
  if running then { afterTry with tray := Status.idle } else afterTry

/-- C8: every exception of the background processing task — from
transcription or injection — is caught and reported on the overlay
instead of propagating (nothing is injected in that case), and the
orchestrator's tray status still returns to idle while the app runs. -/
theorem process_audio_catches_and_idles (running : Bool)
    (transcribeRes : Except String String) (injectRes : String → Except String Unit)
    (u : ProcUIState) :
    (running = true →
      (processAudio running transcribeRes injectRes u).tray = Status.idle) ∧
      (∀ e, transcribeRes = Except.error e →
        (processAudio running transcribeRes injectRes u).overlay = OverlayView.errorView e ∧
          (processAudio running transcribeRes injectRes u).injected = u.injected) ∧
      (∀ text e, transcribeRes = Except.ok text → text ≠ "" →
        injectRes text = Except.error e →
        (processAudio running transcribeRes injectRes u).overlay = OverlayView.errorView e ∧
          (processAudio running transcribeRes injectRes u).injected = u.injected) := by
  refine ⟨?_, ?_, ?_⟩
  · intro hrun
    simp only [processAudio, hrun, if_pos]
  · intro e he
    subst he
    cases hrun : running <;> simp [processAudio, processBody, hrun]
  · intro text e htr hne hinj
    subst htr
    cases hrun : running <;> simp [processAudio, processBody, hne, hinj, hrun]

/-- Witness for the C8 theorem: a failing transcription with the app
running. -/
theorem process_audio_catches_and_idles_witness :
    ((true : Bool) = true →
      (processAudio true (Except.error "boom") (fun _ => Except.ok ())
        ⟨Status.processing, OverlayView.processing, []⟩).tray = Status.idle) ∧
      (∀ e, (Except.error "boom" : Except String String) = Except.error e →
        (processAudio true (Except.error "boom") (fun _ => Except.ok ())
            ⟨Status.processing, OverlayView.processing, []⟩).overlay =
            OverlayView.errorView e ∧
          (processAudio true (Except.error "boom") (fun _ => Except.ok ())
            ⟨Status.processing, OverlayView.processing, []⟩).injected =
            (⟨Status.processing, OverlayView.processing, []⟩ : ProcUIState).injected) ∧
      (∀ text e, (Except.error "boom" : Except String String) = Except.ok text → text ≠ "" →
        (fun _ => Except.ok ()) text = Except.error e →
        (processAudio true (Except.error "boom") (fun _ => Except.ok ())
            ⟨Status.processing, OverlayView.processing, []⟩).overlay =
            OverlayView.errorView e ∧
          (processAudio true (Except.error "boom") (fun _ => Except.ok ())
            ⟨Status.processing, OverlayView.processing, []⟩).injected =
            (⟨Status.processing, OverlayView.processing, []⟩ : ProcUIState).injected) :=
  process_audio_catches_and_idles true (Except.error "boom") (fun _ => Except.ok ())
    ⟨Status.processing, OverlayView.processing, []⟩

end VoiceInjector
